import Mathlib

set_option maxHeartbeats 1600000

namespace Hopper

/- ===============================================================
   Character and string helpers shared by the embedded functions.
   JavaScript string operations are modelled over `List Char`
   (one `Char` per UTF-16 code unit of the original strings;
   all literals involved are ASCII).
   =============================================================== -/

/-- Whitespace as used by JavaScript trim / \s on the inputs involved. -/
def wsChar (c : Char) : Bool := c == ' ' || c == '\t' || c == '\n' || c == '\r'

/-- Word character for the regex word-boundary \b: [A-Za-z0-9_]. -/
def isWordChar (c : Char) : Bool :=
  ('a' ≤ c && c ≤ 'z') || ('A' ≤ c && c ≤ 'Z') || ('0' ≤ c && c ≤ '9') || c == '_'

/-- ASCII lowercase letter, the regex class [a-z]. -/
def isLowAZ (c : Char) : Bool := 'a' ≤ c && c ≤ 'z'

/-- ASCII uppercase letter, the regex class [A-Z]. -/
def isUpAZ (c : Char) : Bool := 'A' ≤ c && c ≤ 'Z'

/-- Drop leading whitespace (JavaScript trimStart). -/
def trimLeftChars (l : List Char) : List Char := l.dropWhile wsChar

/-- JavaScript String.prototype.trim: drop whitespace at both ends. -/
def trimChars (l : List Char) : List Char :=
  ((trimLeftChars l).reverse.dropWhile wsChar).reverse

/-- JavaScript s.trim() on a `String`. -/
def jsTrim (s : String) : String := (trimChars s.data).asString

/-- JavaScript s.split(sep-char), keeping empty segments exactly like JS. -/
def splitOnChar (sep : Char) : List Char → List (List Char)
  | [] => [[]]
  | c :: r =>
    if c == sep then [] :: splitOnChar sep r
    else
      match splitOnChar sep r with
      | [] => [[c]]
      | h :: t => (c :: h) :: t

/-- Substring after the last '.', i.e. text.split(".").pop(). -/
def afterLastDot (l : List Char) : List Char :=
  (l.reverse.takeWhile (fun c => c != '.')).reverse

/-- Text before the first '(', i.e. text.split("(")[0]. -/
def beforeParen (l : List Char) : List Char := l.takeWhile (fun c => c != '(')

/-- doc.sliceString(a, b) over the source text, as a character list. -/
def sliceCh (doc : String) (a b : Nat) : List Char := (doc.data.drop a).take (b - a)

/-- doc.sliceString(a, b) over the source text, as a string. -/
def sliceStr (doc : String) (a b : Nat) : String := (sliceCh doc a b).asString

/-- Line number of an offset: 1 + number of newline characters before it
    (the lineNum helper of book-structure.ts and doc.lineAt().number). -/
def lineNumAt (doc : String) (off : Nat) : Nat :=
  ((doc.data.take off).filter (fun c => c == '\n')).length + 1

/- ===============================================================
   Parse-tree model (the external Lezer tree consumed read-only):
   a node has a grammar tag, a byte-offset span and ordered children.
   =============================================================== -/

/-- A syntax-tree node as consumed by the extractor. -/
inductive PNode where
  | mk (tag : String) (nfrom nto : Nat) (children : List PNode)

def PNode.tag : PNode → String
  | .mk t _ _ _ => t

def PNode.nfrom : PNode → Nat
  | .mk _ f _ _ => f

def PNode.nto : PNode → Nat
  | .mk _ _ t _ => t

def PNode.children : PNode → List PNode
  | .mk _ _ _ c => c

/-- SyntaxNode.getChild(tag): the first direct child carrying the tag. -/
def PNode.getChild (n : PNode) (t : String) : Option PNode :=
  n.children.find? (fun c => c.tag == t)

/-- node text doc.sliceString(node.from, node.to) as characters. -/
def nodeCh (doc : String) (n : PNode) : List Char := sliceCh doc n.nfrom n.nto

/-- node text doc.sliceString(node.from, node.to). -/
def nodeStr (doc : String) (n : PNode) : String := sliceStr doc n.nfrom n.nto

theorem PNode.getChild_mem {n : PNode} {t : String} {c : PNode}
    (h : n.getChild t = some c) : c ∈ n.children :=
  List.mem_of_find?_eq_some h

theorem PNode.sizeOf_lt_of_mem_children {c n : PNode} (h : c ∈ n.children) :
    sizeOf c < sizeOf n := by
  cases n with
  | mk t a b cs =>
    have h2 := List.sizeOf_lt_of_mem h
    simp only [PNode.children] at h
    simp only [PNode.mk.sizeOf_spec]
    have h3 := List.sizeOf_lt_of_mem h
    omega

/-- First hit of node.getChild(t1) || node.getChild(t2) || ... -/
def firstNamedChild (n : PNode) : List String → Option PNode
  | [] => none
  | t :: rest =>
    match n.getChild t with
    | some c => some c
    | none => firstNamedChild n rest

theorem firstNamedChild_mem {n : PNode} {ts : List String} {c : PNode}
    (h : firstNamedChild n ts = some c) : c ∈ n.children := by
  induction ts with
  | nil => simp [firstNamedChild] at h
  | cons t rest ih =>
    simp only [firstNamedChild] at h
    cases hg : n.getChild t with
    | some d => rw [hg] at h; cases h; exact PNode.getChild_mem hg
    | none => rw [hg] at h; exact ih h

/- ===============================================================
   Node Classifier: per-language tag tables (editor.ts).
   =============================================================== -/

def nameNodesFor : String → List String
  | "py" => ["VariableName"]
  | "rs" => ["BoundIdentifier", "TypeIdentifier"]
  | _ => ["VariableDefinition", "PropertyDefinition"]

def funcNodesFor : String → List String
  | "py" => ["FunctionDefinition"]
  | "rs" => ["FunctionItem"]
  | _ => ["FunctionDeclaration", "FunctionExpression", "ArrowFunction", "MethodDeclaration"]

def classNodesFor : String → List String
  | "py" => ["ClassDefinition"]
  | "rs" => ["StructItem", "EnumItem", "TraitItem", "ImplItem"]
  | _ => ["ClassDeclaration", "ClassExpression"]

def importNodesFor : String → List String
  | "py" => ["ImportStatement"]
  | "rs" => ["UseDeclaration", "ExternCrateDeclaration"]
  | _ => ["ImportDeclaration"]

def exportNodesFor : String → List String
  | "py" => []
  | "rs" => []
  | _ => ["ExportDeclaration"]

def typeNodesFor : String → List String
  | "py" => []
  | "rs" => ["TypeItem"]
  | _ => ["TypeAliasDeclaration", "InterfaceDeclaration", "EnumDeclaration"]

def varNodesFor : String → List String
  | "py" => ["AssignStatement"]
  | "rs" => ["LetDeclaration", "ConstItem", "StaticItem"]
  | _ => ["VariableDeclaration"]

def controlNodes : List String :=
  ["IfStatement", "ForStatement", "WhileStatement", "DoStatement",
   "SwitchStatement", "TryStatement",
   "IfExpression", "MatchExpression", "WhileExpression",
   "ForExpression", "LoopExpression"]

def loopNodes : List String :=
  ["ForStatement", "WhileStatement", "DoStatement",
   "WhileExpression", "ForExpression", "LoopExpression"]

def conditionNodes : List String :=
  ["IfStatement", "SwitchStatement", "TryStatement",
   "IfExpression", "MatchExpression"]

/-- The seven canonical declaration kinds. -/
inductive Kind where
  | kFunction | kClass | kVariable | kImport | kExport | kControl | kType
deriving DecidableEq, Repr

/-- The source string of a kind (the TS string literals). -/
def kindStr : Kind → String
  | .kFunction => "function"
  | .kClass => "class"
  | .kVariable => "variable"
  | .kImport => "import"
  | .kExport => "export"
  | .kControl => "control"
  | .kType => "type"

/-- classifyNode of editor.ts: ordered table lookup. -/
def classifyNode (lang : String) (n : PNode) : Option Kind :=
  if (funcNodesFor lang).contains n.tag then some .kFunction
  else if (classNodesFor lang).contains n.tag then some .kClass
  else if (importNodesFor lang).contains n.tag then some .kImport
  else if (exportNodesFor lang).contains n.tag then some .kExport
  else if (typeNodesFor lang).contains n.tag then some .kType
  else if (varNodesFor lang).contains n.tag then some .kVariable
  else if controlNodes.contains n.tag then some .kControl
  else none

/- ===============================================================
   Declaration model (prose-types.ts).
   =============================================================== -/

/-- One extracted parameter: { name, type? }. -/
structure Param where
  name : String
  type : Option String
deriving DecidableEq, Repr

/-- Per-declaration body statistics. -/
structure ChildSummary where
  callCount : Nat
  conditionCount : Nat
  loopCount : Nat
  returnCount : Nat
  calledFunctions : List String
deriving DecidableEq, Repr

def emptySummary : ChildSummary :=
  { callCount := 0, conditionCount := 0, loopCount := 0, returnCount := 0, calledFunctions := [] }

/-- A declaration node of the structural model (FileNode of prose-types.ts). -/
inductive FileNode where
  | mk (kind : Kind) (name : String) (params : List Param) (returnType : Option String)
      (isAsync isExported : Bool) (keyword : String) (nfrom nto : Nat)
      (children : List FileNode) (childSummary : ChildSummary)

def FileNode.kind : FileNode → Kind
  | .mk k _ _ _ _ _ _ _ _ _ _ => k

def FileNode.name : FileNode → String
  | .mk _ n _ _ _ _ _ _ _ _ _ => n

def FileNode.params : FileNode → List Param
  | .mk _ _ p _ _ _ _ _ _ _ _ => p

def FileNode.returnType : FileNode → Option String
  | .mk _ _ _ r _ _ _ _ _ _ _ => r

def FileNode.isAsync : FileNode → Bool
  | .mk _ _ _ _ a _ _ _ _ _ _ => a

def FileNode.isExported : FileNode → Bool
  | .mk _ _ _ _ _ e _ _ _ _ _ => e

def FileNode.keyword : FileNode → String
  | .mk _ _ _ _ _ _ k _ _ _ _ => k

def FileNode.nfrom : FileNode → Nat
  | .mk _ _ _ _ _ _ _ f _ _ _ => f

def FileNode.nto : FileNode → Nat
  | .mk _ _ _ _ _ _ _ _ t _ _ => t

def FileNode.children : FileNode → List FileNode
  | .mk _ _ _ _ _ _ _ _ _ c _ => c

def FileNode.childSummary : FileNode → ChildSummary
  | .mk _ _ _ _ _ _ _ _ _ _ s => s

/-- The mutation fileNode.isExported = true of walkJsNodes. -/
def FileNode.withExported (n : FileNode) (e : Bool) : FileNode :=
  match n with
  | .mk k nm p r a _ kw f t c s => .mk k nm p r a e kw f t c s

/-- The shallow copy with forced kind, realizing spread-with-kind-override
    in walkJsNodes (all other fields kept). -/
def FileNode.withKind (n : FileNode) (k2 : Kind) : FileNode :=
  match n with
  | .mk _ nm p r a e kw f t c s => .mk k2 nm p r a e kw f t c s

/-- The per-file structural model. -/
structure FileStructure where
  imports : List FileNode
  exports : List FileNode
  declarations : List FileNode
  language : String

def emptyStructure (lang : String) : FileStructure :=
  { imports := [], exports := [], declarations := [], language := lang }

/- ===============================================================
   Child-Summary Aggregator (buildChildSummary / walkForSummary).
   =============================================================== -/

/-- Function-like tags at which the summary walk stops. -/
def skipNames : List String :=
  ["FunctionDeclaration", "FunctionExpression", "ArrowFunction",
   "FunctionDefinition", "FunctionItem", "MethodDeclaration"]

def callNames : List String := ["CallExpression", "NewExpression", "MacroInvocation"]

/-- Callee-name extraction of walkForSummary: the invoked expression text,
    after the last '.', before the first '(', trimmed; kept when truthy
    and shorter than 40 characters. -/
def calleeName (doc : String) (n : PNode) : Option String :=
  match n.children.head? with
  | none => none
  | some callee =>
    let nm := trimChars (beforeParen (afterLastDot (nodeCh doc callee)))
    if nm ≠ [] ∧ nm.length < 40 then some nm.asString else none

/-- The per-node counter increments of walkForSummary. -/
def bumpSummary (doc : String) (n : PNode) (s : ChildSummary) : ChildSummary :=
  let s :=
    if callNames.contains n.tag then
      let s1 := { s with callCount := s.callCount + 1 }
      match calleeName doc n with
      | some nm => { s1 with calledFunctions := s1.calledFunctions ++ [nm] }
      | none => s1
    else s
  let s := if conditionNodes.contains n.tag then { s with conditionCount := s.conditionCount + 1 } else s
  let s := if loopNodes.contains n.tag then { s with loopCount := s.loopCount + 1 } else s
  if n.tag == "ReturnStatement" || n.tag == "ReturnExpression" then
    { s with returnCount := s.returnCount + 1 }
  else s

mutual

def walkForSummary (doc : String) (n : PNode) (s : ChildSummary) : ChildSummary :=
  match n with
  | .mk tag a b cs =>
    let s1 := bumpSummary doc (.mk tag a b cs) s
    if skipNames.contains tag then s1 else walkSummaryList doc cs s1

def walkSummaryList (doc : String) (l : List PNode) (s : ChildSummary) : ChildSummary :=
  match l with
  | [] => s
  | c :: r => walkSummaryList doc r (walkForSummary doc c s)

end

/-- JS Set-based dedup preserving first occurrences. -/
def dedupFirst (l : List String) : List String := dedupFirstGo [] l
where
  dedupFirstGo (seen : List String) : List String → List String
    | [] => []
    | x :: r => if seen.contains x then dedupFirstGo seen r else x :: dedupFirstGo (seen ++ [x]) r

/-- buildChildSummary of editor.ts: walk the node's children and
    deduplicate called function names. -/
def buildChildSummary (doc : String) (n : PNode) : ChildSummary :=
  let s := walkSummaryList doc n.children emptySummary
  { s with calledFunctions := dedupFirst s.calledFunctions }

/- ===============================================================
   Name / parameter / type / flag extraction (editor.ts).
   =============================================================== -/

/-- Helper of extractName: for declarator-wrapping constructs, one level
    inside a declarator child. -/
def declaratorInner (d : PNode) : Option PNode :=
  match d.getChild "VariableDefinition" with
  | some i => some i
  | none => d.getChild "VariableName"

def declaratorName (n : PNode) : List String → Option PNode
  | [] => none
  | t :: rest =>
    match n.getChild t with
    | some d =>
      match declaratorInner d with
      | some i => some i
      | none => declaratorName n rest
    | none => declaratorName n rest

/-- Absolute fallback of extractName: first line of the first 60 characters,
    trimmed, truncated to 37 + "..." when longer than 40. -/
def nameFallback (doc : String) (n : PNode) : String :=
  let text := sliceCh doc n.nfrom (min n.nto (n.nfrom + 60))
  let first := trimChars (text.takeWhile (fun c => c != '\n'))
  if first.length > 40 then (first.take 37).asString ++ "..." else first.asString

/-- extractName of editor.ts: the documented fallback chain. -/
def extractName (doc lang : String) (n : PNode) : String :=
  match firstNamedChild n (nameNodesFor lang) with
  | some c => nodeStr doc c
  | none =>
  match firstNamedChild n ["VariableDefinition", "VariableName", "BoundIdentifier"] with
  | some c => nodeStr doc c
  | none =>
  match declaratorName n ["VariableDeclarator", "VariableDefinition"] with
  | some c => nodeStr doc c
  | none =>
  match h : firstNamedChild n ["FunctionDeclaration", "ClassDeclaration", "VariableDeclaration"] with
  | some c => extractName doc lang c
  | none =>
  match firstNamedChild n ["TypeIdentifier", "TypeName"] with
  | some c => nodeStr doc c
  | none => nameFallback doc n
termination_by sizeOf n
decreasing_by
  exact PNode.sizeOf_lt_of_mem_children (firstNamedChild_mem h)

/-- Strip a leading ":" plus whitespace (the replace of /^:\s*/ with ""). -/
def stripColonWs (l : List Char) : List Char :=
  match l with
  | ':' :: r => r.dropWhile wsChar
  | _ => l

/-- Strip a leading \s*->\s* when present (the replace of /^\s*->\s*/). -/
def stripArrowWs (l : List Char) : List Char :=
  let t := l.dropWhile wsChar
  match t with
  | '-' :: '>' :: r => r.dropWhile wsChar
  | _ => l

def paramPunct : List String := ["(", ")", ",", "..."]

/-- extractParams of editor.ts. -/
def extractParams (doc : String) (n : PNode) : List Param :=
  match firstNamedChild n ["ParamList", "Parameters", "TypeParamList"] with
  | none => []
  | some pl =>
    pl.children.foldl
      (fun acc child =>
        if paramPunct.contains child.tag then acc
        else
          let nm :=
            match firstNamedChild child ["VariableDefinition", "VariableName", "BoundIdentifier"] with
            | some nc => nodeStr doc nc
            | none =>
              (trimChars ((nodeCh doc child).takeWhile
                (fun c => ¬(c == ',' || c == ':' || c == '=')))).asString
          if nm ≠ "" ∧ nm ≠ "(" ∧ nm ≠ ")" then
            let ty := (child.getChild "TypeAnnotation").map
              (fun ta => (stripColonWs (nodeCh doc ta)).asString)
            acc ++ [{ name := nm, type := ty }]
          else acc)
      []

/-- extractReturnType of editor.ts. -/
def extractReturnType (doc : String) (n : PNode) : Option String :=
  match n.getChild "TypeAnnotation" with
  | some ta => some ((stripArrowWs (stripColonWs (nodeCh doc ta))).asString)
  | none =>
    let rt :=
      match n.getChild "ReturnType" with
      | some r => some r
      | none => n.getChild "TypeIdentifier"
    match rt with
    | some r => some ((stripArrowWs (nodeCh doc r)).asString)
    | none => none

/-- isAsync of editor.ts: first 20 characters, left-trimmed, start with "async". -/
def isAsyncNode (doc : String) (n : PNode) : Bool :=
  "async".data.isPrefixOf (trimLeftChars (sliceCh doc n.nfrom (min n.nto (n.nfrom + 20))))

/-- isExported of editor.ts, with the node's context (parent tag and the tag
    of its immediately preceding sibling) passed explicitly. -/
def isExportedCtx (parentTag prevTag : Option String) : Bool :=
  parentTag == some "ExportDeclaration" || prevTag == some "export"

def declKeywords : List String :=
  ["const", "let", "var", "function", "class", "interface", "type", "enum",
   "struct", "trait", "impl", "fn", "use", "import", "from", "pub", "mod"]

/-- Consume an optional word followed by \s+ (the regex groups
    (export\s+)? and (async\s+)?). -/
def consumeWordWs (w : String) (l : List Char) : List Char :=
  if w.data.isPrefixOf l then
    match l.drop w.data.length with
    | c :: r => if wsChar c then (c :: r).dropWhile wsChar else l
    | [] => l
  else l

/-- Keyword alternative followed by the word boundary \b. -/
def kwBoundary (kw : String) (l : List Char) : Bool :=
  kw.data.isPrefixOf l &&
    (match l.drop kw.data.length with
     | [] => true
     | c :: _ => !isWordChar c)

def findKeyword (l : List Char) : List String → Option String
  | [] => none
  | kw :: rest => if kwBoundary kw l then some kw else findKeyword l rest

/-- The keyword regex of extractKeyword applied to a text window. -/
def keywordReMatch (l : List Char) : Option String :=
  findKeyword (consumeWordWs "async" (consumeWordWs "export" l)) declKeywords

/-- extractKeyword of editor.ts: regex over the first 30 characters,
    falling back to the raw grammar tag. -/
def extractKeyword (doc : String) (n : PNode) : String :=
  match keywordReMatch (sliceCh doc n.nfrom (min n.nto (n.nfrom + 30))) with
  | some kw => kw
  | none => n.tag

/- ===============================================================
   buildFileNode (editor.ts): classification + recursive children.
   =============================================================== -/

def bodyTags : List String := ["Block", "Body", "ClassBody", "DeclarationList"]

mutual

/-- buildFileNode of editor.ts. The node's surrounding context (parent tag,
    previous-sibling tag) is passed explicitly for the isExported check. -/
def buildFileNode (doc lang : String) (parentTag prevTag : Option String) (n : PNode) :
    Option FileNode :=
  match classifyNode lang n with
  | none => none
  | some kind =>
    let name := extractName doc lang n
    let params := if kind = Kind.kFunction then extractParams doc n else []
    let returnType := if kind = Kind.kFunction then extractReturnType doc n else none
    let childSummary :=
      if kind = Kind.kFunction ∨ kind = Kind.kClass then buildChildSummary doc n
      else emptySummary
    let children :=
      if kind = Kind.kFunction ∨ kind = Kind.kClass then
        match h : firstNamedChild n bodyTags with
        | some body => buildBodyList doc lang body.tag none body.children
        | none => []
      else []
    some (.mk kind name params returnType (isAsyncNode doc n) (isExportedCtx parentTag prevTag)
      (extractKeyword doc n) n.nfrom n.nto children childSummary)
termination_by sizeOf n
decreasing_by
  have h1 := PNode.sizeOf_lt_of_mem_children (firstNamedChild_mem h)
  cases body with
  | mk t2 a2 b2 cs2 =>
    simp only [PNode.children, PNode.mk.sizeOf_spec] at h1 ⊢
    omega

/-- The body-children loop of buildFileNode, threading the previous-sibling
    tag through the iteration. -/
def buildBodyList (doc lang : String) (parentTag : String) (prevTag : Option String) :
    List PNode → List FileNode
  | [] => []
  | c :: rest =>
    match buildFileNode doc lang (some parentTag) prevTag c with
    | some fn => fn :: buildBodyList doc lang parentTag (some c.tag) rest
    | none => buildBodyList doc lang parentTag (some c.tag) rest
termination_by l => sizeOf l
decreasing_by
  all_goals simp only [List.cons.sizeOf_spec]
  all_goals omega

end

/- ===============================================================
   walkJsNodes (editor.ts): top-level iteration and the
   export-wrapper branch.
   =============================================================== -/

/-- The inner while-loop over an export wrapper's children in walkJsNodes:
    classifiable inner nodes are built, forced exported, routed to the
    "imports"/"declarations" lists, and a kind-forced copy is pushed to exports. -/
def processExportInner (doc lang : String) (prevTag : Option String) (st : FileStructure) :
    List PNode → FileStructure
  | [] => st
  | c :: rest =>
    let st2 :=
      match buildFileNode doc lang (some "ExportDeclaration") prevTag c with
      | some fn0 =>
        let fn := fn0.withExported true
        let st1 :=
          if fn.kind = Kind.kImport then { st with imports := st.imports ++ [fn] }
          else { st with declarations := st.declarations ++ [fn] }
        { st1 with exports := st1.exports ++ [fn.withKind Kind.kExport] }
      | none => st
    processExportInner doc lang (some c.tag) st2 rest

/-- The wrapper-fallback test of walkJsNodes: no first child, or the first
    child is unclassifiable. -/
def wrapperFallback (lang : String) (n : PNode) : Bool :=
  match n.children.head? with
  | none => true
  | some fc => decide (classifyNode lang fc = none)

/-- One iteration of walkJsNodes on a top-level node, with the top node's tag
    and the previous top-level sibling's tag as context. -/
def processTopNode (doc lang topTag : String) (prevTag : Option String) (n : PNode)
    (st : FileStructure) : FileStructure :=
  if n.tag = "ExportDeclaration" then
    let st1 := processExportInner doc lang none st n.children
    if wrapperFallback lang n then
      match buildFileNode doc lang (some topTag) prevTag n with
      | some en => { st1 with exports := st1.exports ++ [en] }
      | none => st1
    else st1
  else
    match buildFileNode doc lang (some topTag) prevTag n with
    | some fn =>
      if fn.kind = Kind.kImport then { st with imports := st.imports ++ [fn] }
      else if fn.kind = Kind.kExport then { st with exports := st.exports ++ [fn] }
      else { st with declarations := st.declarations ++ [fn] }
    | none => st

/-- walkJsNodes of editor.ts over the list of top-level sibling nodes. -/
def walkJsNodes (doc lang topTag : String) (prevTag : Option String) (ns : List PNode)
    (st : FileStructure) : FileStructure :=
  match ns with
  | [] => st
  | n :: rest => walkJsNodes doc lang topTag (some n.tag) rest (processTopNode doc lang topTag prevTag n st)

/-- extractFileStructure of editor.ts for the non-template grammars:
    walk the top node's children. -/
def extractFileStructure (doc lang : String) (tree : PNode) : FileStructure :=
  walkJsNodes doc lang tree.tag none tree.children (emptyStructure lang)

/- ===============================================================
   Outline/Chunk Builder (book-structure.ts).
   =============================================================== -/

/-- An id-index entry of buildOutline. -/
structure NodeEntry where
  fileNode : FileNode
  code : String
  depth : Nat

/-- First two lines of a snippet, joined (code.split newline, slice 0 2). -/
def previewOf (code : String) : String :=
  String.intercalate "\n" (((splitOnChar '\n' code.data).take 2).map List.asString)

/-- Indentation of two spaces per depth level. -/
def indentStr (depth : Nat) : String := String.join (List.replicate depth "  ")

/-- Math.min over a list (used on the nonempty import list). -/
def minList : List Nat → Nat
  | [] => 0
  | x :: r => r.foldl min x

/-- Math.max over a list (used on the nonempty import list). -/
def maxList : List Nat → Nat
  | [] => 0
  | x :: r => r.foldl max x

mutual

/-- walkNode of buildOutline: take an id, record the entry, emit the two
    outline lines, then recurse into children pre-order. -/
def walkNode (doc : String) (node : FileNode) (depth idStart : Nat) :
    List String × List (Nat × NodeEntry) × Nat :=
  match node with
  | .mk kind nm params returnType ia ie kw a b children cs =>
    let code := sliceStr doc a b
    let preview := previewOf code
    let indent := indentStr depth
    let label :=
      if kind = Kind.kFunction then
        kw ++ " " ++ nm ++ "(" ++ String.intercalate ", " (params.map Param.name) ++ ")"
      else kw ++ " " ++ nm
    let selfEntry : Nat × NodeEntry :=
      (idStart, { fileNode := .mk kind nm params returnType ia ie kw a b children cs,
                  code := code, depth := depth })
    let selfLines :=
      [indent ++ label ++ " (lines " ++ toString (lineNumAt doc a) ++ "-" ++
         toString (lineNumAt doc b) ++ ")",
       indent ++ "  " ++ preview]
    let rest := walkNodeList doc children (depth + 1) (idStart + 1)
    (selfLines ++ rest.1, selfEntry :: rest.2.1, rest.2.2)

def walkNodeList (doc : String) (l : List FileNode) (depth idStart : Nat) :
    List String × List (Nat × NodeEntry) × Nat :=
  match l with
  | [] => ([], [], idStart)
  | c :: r =>
    let first := walkNode doc c depth idStart
    let rest := walkNodeList doc r depth first.2.2
    (first.1 ++ rest.1, first.2.1 ++ rest.2.1, rest.2.2)

end

/-- The synthesized import pseudo-node of buildOutline. -/
def synthImportNode (st : FileStructure) (doc : String) : FileNode :=
  let firstFrom := minList (st.imports.map FileNode.nfrom)
  let lastTo := maxList (st.imports.map FileNode.nto)
  let names := String.intercalate ", " (st.imports.map FileNode.name)
  .mk Kind.kImport (if names.length > 60 then (names.data.take 57).asString ++ "..." else names)
    [] none false false "import" firstFrom lastTo [] emptySummary

/-- buildOutline of book-structure.ts: the import group (when present)
    receives the first id, then declarations are walked pre-order. -/
def buildOutline (st : FileStructure) (doc : String) :
    String × List (Nat × NodeEntry) :=
  let start :=
    if st.imports.length > 0 then
      let node := synthImportNode st doc
      let code := sliceStr doc node.nfrom node.nto
      let preview := previewOf code
      ([ "imports (lines " ++ toString (lineNumAt doc node.nfrom) ++ "-" ++
           toString (lineNumAt doc node.nto) ++ ")",
         "  " ++ preview ],
       [(1, { fileNode := node, code := code, depth := 0 : NodeEntry })], 2)
    else ([], [], 1)
  let rest := walkNodeList doc st.declarations 0 start.2.2
  (String.intercalate "\n" (start.1 ++ rest.1), start.2.1 ++ rest.2.1)

/- ===============================================================
   Annotation Generator (TemplateProse of the prose provider).
   =============================================================== -/

/-- humanizeName: split camelCase, then snake_case, then kebab-case, trim. -/
def camelSplit : List Char → List Char
  | [] => []
  | [a] => [a]
  | a :: b :: r =>
    if isLowAZ a && isUpAZ b then a :: ' ' :: b :: camelSplit r
    else a :: camelSplit (b :: r)

def undToSp (c : Char) : Char := if c == '_' then ' ' else c

def dashToSp (c : Char) : Char := if c == '-' then ' ' else c

def humChars (l : List Char) : List Char :=
  trimChars (((camelSplit l).map undToSp).map dashToSp)

/-- humanizeName of the prose provider. -/
def humanizeName (s : String) : String := (humChars s.data).asString

/-- plural helper: "1 loop" / "2 loops". -/
def plural (n : Nat) (word : String) : String :=
  if n = 1 then toString n ++ " " ++ word else toString n ++ " " ++ word ++ "s"

/-- kindLabel of the prose provider. -/
def kindLabel : Kind → String
  | .kFunction => "function"
  | .kClass => "class"
  | .kVariable => "variable"
  | .kImport => "import"
  | .kExport => "export"
  | .kControl => "control structure"
  | .kType => "type definition"

/-- JS truthiness of an optional string field. -/
def optTruthy : Option String → Bool
  | some s => s ≠ ""
  | none => false

/-- groupByKind: a Map in key-insertion order. -/
def gbkInsert (acc : List (Kind × List FileNode)) (n : FileNode) : List (Kind × List FileNode) :=
  match acc with
  | [] => [(n.kind, [n])]
  | (k, ns) :: r => if k = n.kind then (k, ns ++ [n]) :: r else (k, ns) :: gbkInsert r n

def groupByKind (nodes : List FileNode) : List (Kind × List FileNode) :=
  nodes.foldl gbkInsert []

/-- fileSummary of TemplateProse. -/
def fileSummary (st : FileStructure) : String :=
  let kindParts := (groupByKind st.declarations).map (fun g =>
    let names := (g.2.map (fun n => humanizeName n.name)).filter (fun nm => nm.length < 40)
    if names.length ≤ 4 then
      plural g.2.length (kindLabel g.1) ++ " (" ++ String.intercalate ", " names ++ ")"
    else plural g.2.length (kindLabel g.1))
  let parts :=
    (if kindParts.length > 0 then ["This file defines " ++ String.intercalate " and " kindParts] else [])
    ++ (if st.imports.length > 0 then ["imports from " ++ plural st.imports.length "module"] else [])
  if parts.length = 0 then "This file is empty or contains no recognizable constructs."
  else String.intercalate " and " parts ++ "."

/-- Svelte block descriptions of the control branch of blockExplanation. -/
def svelteBlockDesc (blockType : String) : String :=
  if blockType = "if" then "Conditionally shows content based on a value."
  else if blockType = "each" then "Repeats content for each item in a list."
  else if blockType = "await" then "Shows different content while waiting for a result, then when it arrives."
  else if blockType = "key" then "Re-creates content whenever a value changes."
  else "A Svelte " ++ blockType ++ " block."

/-- blockExplanation of TemplateProse: the deterministic per-declaration
    (summary, detail) caption pair. -/
def blockExplanation (node : FileNode) : String × String :=
  let name := humanizeName node.name
  match node.kind with
  | .kFunction =>
    let s1 := name ++ " is " ++ (if node.isAsync then "an async " else "a ") ++ "function"
    let s2 :=
      if node.params.length > 0 then
        s1 ++ " that takes " ++ String.intercalate ", "
          (node.params.map (fun p =>
            if optTruthy p.type then p.name ++ " (" ++ (p.type.getD "") ++ ")" else p.name))
      else s1
    let s3 := if optTruthy node.returnType then s2 ++ " and returns " ++ node.returnType.getD "" else s2
    let summary := s3 ++ "."
    let cs := node.childSummary
    let detailParts :=
      (if cs.calledFunctions.length > 0 then
        ["calls " ++ String.intercalate ", " (cs.calledFunctions.take 5) ++
           (if cs.calledFunctions.length > 5 then " and more" else "")]
       else [])
      ++ (if cs.conditionCount > 0 then ["checks " ++ plural cs.conditionCount "condition"] else [])
      ++ (if cs.loopCount > 0 then ["uses " ++ plural cs.loopCount "loop"] else [])
      ++ (if cs.returnCount > 0 then ["returns " ++ plural cs.returnCount "value"] else [])
    let detail :=
      if detailParts.length > 0 then "Inside, it " ++ String.intercalate ", " detailParts ++ "."
      else ""
    (summary, detail)
  | .kClass =>
    let s1 := name ++ " is a " ++
      (if node.keyword = "trait" then "trait" else if node.keyword = "struct" then "struct" else "class")
    let s2 :=
      if node.children.length > 0 then
        let methods := node.children.filter (fun c => c.kind = Kind.kFunction)
        let props := node.children.filter (fun c => c.kind = Kind.kVariable)
        let parts :=
          (if methods.length > 0 then
            [plural methods.length "method" ++ " (" ++
               String.intercalate ", " ((methods.map (fun m => humanizeName m.name)).take 5) ++
               (if methods.length > 5 then ", ..." else "") ++ ")"]
           else [])
          ++ (if props.length > 0 then [plural props.length "property"] else [])
        if parts.length > 0 then s1 ++ " with " ++ String.intercalate " and " parts else s1
      else s1
    (s2 ++ ".", "")
  | .kVariable =>
    if node.keyword = "component" then ("Uses the " ++ name ++ " component.", "")
    else
      let kw := if node.keyword = "const" then "constant"
        else if node.keyword = "let" then "variable" else "value"
      (name ++ " is a " ++ kw ++ (if node.isExported then " (exported)" else "") ++ ".", "")
  | .kType =>
    let typeKind := if node.keyword = "interface" then "interface"
      else if node.keyword = "enum" then "enum" else "type alias"
    (name ++ " is " ++ (if typeKind = "enum" then "an" else "a") ++ " " ++ typeKind ++ ".", "")
  | .kControl =>
    let kw := node.keyword
    if ['\x7b', '#'].isPrefixOf kw.data then
      let bt0 := kw.data.drop 2
      let blockType :=
        (if bt0.getLast? = some '\x7d' then bt0.dropLast else bt0).asString
      (name ++ " — " ++ svelteBlockDesc blockType, "")
    else ("A control structure (" ++ kw ++ ").", "")
  | k => (name ++ " (" ++ kindStr k ++ ").", "")

/- ===============================================================
   External annotation request boundary (describeFile and its cache).
   The SHA-256 digest is modelled by its preimage: the hash is assumed
   collision-resistant, so distinct keys stand for distinct digests.
   The window.ai.describe service is a deterministic oracle parameter.
   =============================================================== -/

/-- The { text?, error? } response of the external service. -/
structure AiResult where
  text : Option String
  error : Option String
deriving DecidableEq, Repr

/-- The result surfaced to describeFile's caller; `truncated = none`
    models the field being absent from the returned object. -/
structure DescribeResult where
  text : Option String
  error : Option String
  truncated : Option Bool
deriving DecidableEq, Repr

/-- The external service: filename, fileContent, projectFiles, outline. -/
def AiService : Type := String → String → List String → String → AiResult

def CACHE_VERSION : String := "v5-prose"

def MAX_CONTENT_SIZE : Nat := 30000

/-- Cache key: hash of versionTag \0 filename \0 content (preimage model). -/
def hashKey (filename content : String) : String :=
  CACHE_VERSION ++ "\x00" ++ filename ++ "\x00" ++ content

/-- The module-level Map used as cache, in insertion order. -/
def Cache : Type := List (String × String)

def cacheGet (c : Cache) (k : String) : Option String :=
  ((List.find? (fun p => p.1 == k) c)).map Prod.snd

def cacheSet : Cache → String → String → Cache
  | [], k, v => [(k, v)]
  | (k0, v0) :: r, k, v => if k0 == k then (k, v) :: r else (k0, v0) :: cacheSet r k v

/-- The truncated file content actually sent to the service. -/
def truncContent (content : String) : String :=
  if content.length > MAX_CONTENT_SIZE then (content.data.take MAX_CONTENT_SIZE).asString
  else content

/-- describeFile of the ai-prose module.  Returns the caller-visible result,
    the cache after the call, and the fileContent the service received
    (`none` when the service was not invoked). -/
def describeFile (ai : AiService) (cache : Cache) (filename content : String)
    (projectFiles : List String) (outline : String) :
    DescribeResult × Cache × Option String :=
  let key := hashKey filename content
  match cacheGet cache key with
  | some cached =>
    if cached ≠ "" then
      ({ text := some cached, error := none, truncated := none }, cache, none)
    else describeFileMiss ai cache key filename content projectFiles outline
  | none => describeFileMiss ai cache key filename content projectFiles outline
where
  describeFileMiss (ai : AiService) (cache : Cache) (key filename content : String)
      (projectFiles : List String) (outline : String) :
      DescribeResult × Cache × Option String :=
    let fileContent := truncContent content
    let truncated := content.length > MAX_CONTENT_SIZE
    let result := ai filename fileContent projectFiles outline
    let cache2 :=
      match result.text with
      | some t => if t ≠ "" then cacheSet cache key t else cache
      | none => cache
    ({ text := result.text, error := result.error, truncated := some (decide truncated) },
     cache2, some fileContent)

/- ===============================================================
   Concept Classifier (concepts.ts / concept-panel.ts).
   =============================================================== -/

def conceptCategories : List (String × List String) :=
  [("declaration",
    ["VariableDeclaration", "FunctionDeclaration", "ClassDeclaration",
     "TypeAliasDeclaration", "InterfaceDeclaration", "EnumDeclaration",
     "FunctionDefinition", "ClassDefinition",
     "LetDeclaration", "FunctionItem", "StructItem", "EnumItem",
     "TraitItem", "ImplItem", "TypeItem", "ConstItem", "StaticItem",
     "UnionItem", "ModItem"]),
   ("import-export",
    ["ImportDeclaration", "ExportDeclaration", "ImportStatement",
     "UseDeclaration", "ExternCrateDeclaration"]),
   ("control-flow",
    ["IfStatement", "ForStatement", "WhileStatement", "DoStatement",
     "SwitchStatement", "TryStatement",
     "IfExpression", "MatchExpression", "WhileExpression",
     "ForExpression", "LoopExpression"]),
   ("control-jump",
    ["ReturnStatement", "ThrowStatement", "BreakStatement", "ContinueStatement",
     "RaiseStatement", "ReturnExpression", "BreakExpression", "ContinueExpression"]),
   ("invocation",
    ["CallExpression", "NewExpression", "TaggedTemplateExpression", "MacroInvocation"]),
   ("data-literal",
    ["String", "Number", "BooleanLiteral", "RegExp", "TemplateString",
     "ArrayExpression", "ObjectExpression",
     "RawString", "Char", "Integer", "Float", "Boolean", "TupleExpression"]),
   ("parameter", ["ParamList", "ArrayPattern", "ObjectPattern"]),
   ("async", ["AwaitExpression", "YieldExpression", "AsyncBlock"]),
   ("jsx", ["JSXElement", "JSXSelfClosingTag"])]

/-- conceptMap[name]: the category owning a tag (each tag occurs in at most
    one category list, so lookup order is immaterial). -/
def conceptMapLookup (tag : String) : Option String :=
  (conceptCategories.find? (fun g => g.2.contains tag)).map Prod.fst

/-- A ConceptInstance record of the concept panel. -/
structure ConceptInstance where
  category : String
  nodeName : String
  cfrom : Nat
  cto : Nat
  text : String
  line : Nat
deriving DecidableEq, Repr

mutual

/-- The enter callback of extractConcepts: record a classified node and
    skip its children (return false), else keep descending. -/
def visitConcepts (doc : String) (n : PNode) : List ConceptInstance :=
  match n with
  | .mk tag a b cs =>
    match conceptMapLookup tag with
    | some cat =>
      [{ category := cat, nodeName := tag, cfrom := a, cto := b,
         text := sliceStr doc a b, line := lineNumAt doc a }]
    | none => visitConceptsList doc cs

def visitConceptsList (doc : String) : List PNode → List ConceptInstance
  | [] => []
  | c :: r => visitConcepts doc c ++ visitConceptsList doc r

end

/-- extractConcepts of concept-panel.ts: tree.iterate over the whole tree. -/
def extractConcepts (doc : String) (tree : PNode) : List ConceptInstance :=
  visitConcepts doc tree

/-- Well-formed span structure of a real syntax tree: nonempty ordering of
    each span, children inside the parent span, siblings in order and
    non-overlapping. -/
def wfSpanList (a b : Nat) : List PNode → Bool
  | [] => true
  | [c] => decide (a ≤ c.nfrom) && decide (c.nto ≤ b)
  | c :: d :: r =>
    decide (a ≤ c.nfrom) && decide (c.nto ≤ b) && decide (c.nto ≤ d.nfrom) &&
      wfSpanList a b (d :: r)

mutual

def wfNode : PNode → Bool
  | .mk _ a b cs => decide (a ≤ b) && wfSpanList a b cs && wfNodeList cs

def wfNodeList : List PNode → Bool
  | [] => true
  | c :: r => wfNode c && wfNodeList r

end

/- ===============================================================
   Shared helper lemmas.
   =============================================================== -/

theorem cacheGet_cacheSet_self (cache : Cache) (k v : String) :
    cacheGet (cacheSet cache k v) k = some v := by
  induction cache with
  | nil => simp [cacheSet, cacheGet, List.find?]
  | cons p r ih =>
    obtain ⟨k0, v0⟩ := p
    by_cases h : k0 = k
    · subst h
      simp [cacheSet, cacheGet, List.find?]
    · have hbe : (k0 == k) = false := by simpa using h
      have h1 : cacheSet ((k0, v0) :: r) k v = (k0, v0) :: cacheSet r k v := by
        simp [cacheSet, hbe]
      rw [h1]
      have h2 : cacheGet ((k0, v0) :: cacheSet r k v) k = cacheGet (cacheSet r k v) k := by
        simp [cacheGet, List.find?, hbe]
      rw [h2, ih]

/- ===============================================================
   Claim C2: the end-to-end prose example.
   =============================================================== -/

/-- The declaration extracted from the end-to-end example file
    (export async function foo(x: number): Promise<void> with a body
    holding one for loop calling bar() and baz()), carrying exactly the
    field values the specification's end-to-end scenario states. -/
def e2eFooNode : FileNode :=
  .mk Kind.kFunction "foo" [{ name := "x", type := some "number" }] (some "Promise<void>")
    true true "function" 19 108 []
    { callCount := 2, conditionCount := 0, loopCount := 1, returnCount := 0,
      calledFunctions := ["bar", "baz"] }

/-- C2 counterexample: for the end-to-end example declaration, the generated
    summary string is not "Foo is an async function that takes x (number) and
    returns Promise<void>." — humanizeName never capitalizes, so the summary
    begins with the lowercase name "foo". -/
theorem C2_counterexample :
    (blockExplanation e2eFooNode).1 ≠
      "Foo is an async function that takes x (number) and returns Promise<void>." := by
  decide

/-- C2 (amended): for the end-to-end example declaration the generated
    summary equals "foo is an async function that takes x (number) and
    returns Promise<void>." (lowercase name) and the detail equals
    "Inside, it calls bar, baz, uses 1 loop." exactly as claimed. -/
theorem C2_prose_of_e2e_example :
    (blockExplanation e2eFooNode).1 =
      "foo is an async function that takes x (number) and returns Promise<void>." ∧
    (blockExplanation e2eFooNode).2 = "Inside, it calls bar, baz, uses 1 loop." := by
  constructor
  · decide
  · decide

/- ===============================================================
   Claim C8: empty input never throws; canned outputs.
   =============================================================== -/

/-- C8: for an empty FileStructure, buildOutline returns the empty outline
    text and an empty id index, and fileSummary returns the canned
    "no recognizable constructs" sentence (both are total functions, so
    no exception can occur). -/
theorem C8_empty_structure (lang doc : String) :
    buildOutline (emptyStructure lang) doc = ("", []) ∧
    fileSummary (emptyStructure lang) =
      "This file is empty or contains no recognizable constructs." :=
  ⟨rfl, rfl⟩

/- ===============================================================
   Claim C3 / C6 / C9: the external service boundary.
   =============================================================== -/

/-- Whether a call with this cache and key is served from the cache
    (the JS truthiness check on cache.get(key)). -/
def cacheServed (cache : Cache) (k : String) : Bool :=
  match cacheGet cache k with
  | some t => t != ""
  | none => false

/-- C3 (amended): on every call not served from the cache, the service
    receives exactly the first MAX_CONTENT_SIZE characters of the content
    (all of it when within the limit) and the result carries
    truncated = true exactly when the content exceeded the limit; a call
    served from the cache performs no service call at all and returns with
    the truncated flag absent. -/
theorem C3_truncation (ai : AiService) (cache : Cache) (filename content : String)
    (projectFiles : List String) (outline : String) :
    (describeFile ai cache filename content projectFiles outline).2.2 =
      (if cacheServed cache (hashKey filename content) then none
       else some (truncContent content)) ∧
    (describeFile ai cache filename content projectFiles outline).1.truncated =
      (if cacheServed cache (hashKey filename content) then none
       else some (decide (content.length > MAX_CONTENT_SIZE))) ∧
    (truncContent content).data = content.data.take MAX_CONTENT_SIZE := by
  refine ⟨?_, ?_, ?_⟩
  · cases hm : cacheGet cache (hashKey filename content) with
    | none => simp [describeFile, cacheServed, hm, describeFile.describeFileMiss]
    | some t =>
      by_cases ht : t = ""
      · subst ht
        simp [describeFile, cacheServed, hm, describeFile.describeFileMiss]
      · simp [describeFile, cacheServed, hm, ht]
  · cases hm : cacheGet cache (hashKey filename content) with
    | none => simp [describeFile, cacheServed, hm, describeFile.describeFileMiss]
    | some t =>
      by_cases ht : t = ""
      · subst ht
        simp [describeFile, cacheServed, hm, describeFile.describeFileMiss]
      · simp [describeFile, cacheServed, hm, ht]
  · unfold truncContent
    split
    · simp [List.asString]
    · next h =>
      have hl : content.data.length ≤ MAX_CONTENT_SIZE := Nat.le_of_not_lt h
      exact (List.take_of_length_le hl).symm

/-- A service oracle that always succeeds with the text "S". -/
def okAi : AiService := fun _ _ _ _ => { text := some "S", error := none }

/-- A service oracle that always fails (no text field). -/
def errAi : AiService := fun _ _ _ _ => { text := none, error := some "boom" }

/-- A cache already holding an entry for the key of ("f.ts", "abc"). -/
def c3Cache : Cache := cacheSet [] (hashKey "f.ts" "abc") "T"

/-- C3 counterexample: the claim quantifies over every call including calls
    served from the cache, but a cache-served call sends nothing to the
    external service (so the service does not receive the content unmodified)
    and returns with the truncated flag absent. -/
theorem C3_counterexample :
    cacheServed c3Cache (hashKey "f.ts" "abc") = true ∧
    (describeFile okAi c3Cache "f.ts" "abc" [] "").2.2 = none ∧
    (describeFile okAi c3Cache "f.ts" "abc" [] "").2.2 ≠ some "abc" ∧
    (describeFile okAi c3Cache "f.ts" "abc" [] "").1.truncated = none := by
  refine ⟨by decide, by decide, by decide, by decide⟩

/-- C6 (amended): starting from a cache miss, if the external service
    responds with a (truthy) text, then the first call invokes the service,
    caches the text, and a second identical call is served from the cache:
    the service is not invoked again and the second call returns exactly the
    cached text (so, across the two calls, the service ran exactly once). -/
theorem C6_cache_hit (ai : AiService) (cache : Cache) (filename content : String)
    (projectFiles : List String) (outline : String) (t : String)
    (hmiss : cacheGet cache (hashKey filename content) = none)
    (hsvc : (ai filename (truncContent content) projectFiles outline).text = some t)
    (ht : t ≠ "") :
    ((describeFile ai cache filename content projectFiles outline).2.2).isSome = true ∧
    (describeFile ai cache filename content projectFiles outline).1.text = some t ∧
    (describeFile ai
        ((describeFile ai cache filename content projectFiles outline).2.1)
        filename content projectFiles outline).2.2 = none ∧
    (describeFile ai
        ((describeFile ai cache filename content projectFiles outline).2.1)
        filename content projectFiles outline).1.text = some t := by
  have hc1 : (describeFile ai cache filename content projectFiles outline).2.1 =
      cacheSet cache (hashKey filename content) t := by
    simp [describeFile, hmiss, describeFile.describeFileMiss, hsvc, ht]
  refine ⟨?_, ?_, ?_, ?_⟩
  · simp [describeFile, hmiss, describeFile.describeFileMiss]
  · simp [describeFile, hmiss, describeFile.describeFileMiss, hsvc]
  · rw [hc1]
    simp [describeFile, cacheGet_cacheSet_self, ht]
  · rw [hc1]
    simp [describeFile, cacheGet_cacheSet_self, ht]

/-- Witness for C6: the amended theorem applied at a concrete successful
    service, empty cache and concrete inputs. -/
theorem C6_cache_hit_witness :
    ((describeFile okAi [] "m.ts" "let x = 1" [] "").2.2).isSome = true ∧
    (describeFile okAi [] "m.ts" "let x = 1" [] "").1.text = some "S" ∧
    (describeFile okAi
        ((describeFile okAi [] "m.ts" "let x = 1" [] "").2.1)
        "m.ts" "let x = 1" [] "").2.2 = none ∧
    (describeFile okAi
        ((describeFile okAi [] "m.ts" "let x = 1" [] "").2.1)
        "m.ts" "let x = 1" [] "").1.text = some "S" :=
  C6_cache_hit okAi [] "m.ts" "let x = 1" [] "" "S" rfl rfl (by decide)

/-- C6 counterexample: with a service that errors, two identical calls both
    invoke the service (nothing was cached), contradicting the claim that
    any two identical calls invoke it exactly once in total. -/
theorem C6_counterexample :
    ((describeFile errAi [] "f.ts" "x" [] "").2.2).isSome = true ∧
    ((describeFile errAi ((describeFile errAi [] "f.ts" "x" [] "").2.1)
        "f.ts" "x" [] "").2.2).isSome = true := by
  refine ⟨by decide, by decide⟩

/-- C9: an error result (response without a text field) is never cached:
    the cache is unchanged after the call, the call surfaces no text, and a
    subsequent identical call invokes the external service again. -/
theorem C9_error_not_cached (ai : AiService) (cache : Cache) (filename content : String)
    (projectFiles : List String) (outline : String)
    (hmiss : cacheGet cache (hashKey filename content) = none)
    (herr : (ai filename (truncContent content) projectFiles outline).text = none) :
    (describeFile ai cache filename content projectFiles outline).2.1 = cache ∧
    (describeFile ai cache filename content projectFiles outline).1.text = none ∧
    ((describeFile ai
        ((describeFile ai cache filename content projectFiles outline).2.1)
        filename content projectFiles outline).2.2).isSome = true := by
  have hc1 : (describeFile ai cache filename content projectFiles outline).2.1 = cache := by
    simp [describeFile, hmiss, describeFile.describeFileMiss, herr]
  refine ⟨hc1, ?_, ?_⟩
  · simp [describeFile, hmiss, describeFile.describeFileMiss, herr]
  · rw [hc1]
    simp [describeFile, hmiss, describeFile.describeFileMiss]

/-- Witness for C9: the theorem applied at the concrete erroring service. -/
theorem C9_error_not_cached_witness :
    (describeFile errAi [] "g.ts" "y" [] "").2.1 = [] ∧
    (describeFile errAi [] "g.ts" "y" [] "").1.text = none ∧
    ((describeFile errAi ((describeFile errAi [] "g.ts" "y" [] "").2.1)
        "g.ts" "y" [] "").2.2).isSome = true :=
  C9_error_not_cached errAi [] "g.ts" "y" [] "" rfl rfl

/- ===============================================================
   Claim C10: humanizeName is idempotent.
   =============================================================== -/

/-- No lowercase-uppercase adjacency (no remaining camelCase boundary). -/
def noLU : List Char → Bool
  | a :: b :: r => (!(isLowAZ a && isUpAZ b)) && noLU (b :: r)
  | _ => true

theorem band_split {a b : Bool} (h : (a && b) = true) : a = true ∧ b = true := by
  constructor
  · exact Bool.and_elim_left h
  · exact Bool.and_elim_right h

theorem noLU_of_cons {a : Char} {l : List Char} (h : noLU (a :: l) = true) :
    noLU l = true := by
  cases l with
  | nil => rfl
  | cons b r =>
    have h2 : ((!(isLowAZ a && isUpAZ b)) && noLU (b :: r)) = true := h
    exact (band_split h2).2

theorem not_lowAZ_of_upAZ {b : Char} (h : isUpAZ b = true) : isLowAZ b = false := by
  simp only [isUpAZ, Bool.and_eq_true, decide_eq_true_eq] at h
  rw [Bool.eq_false_iff]
  intro hlow
  simp only [isLowAZ, Bool.and_eq_true, decide_eq_true_eq] at hlow
  exact absurd (le_trans hlow.1 h.2) (by decide)

theorem camel_head (a : Char) (r : List Char) : ∃ t, camelSplit (a :: r) = a :: t := by
  cases r with
  | nil => exact ⟨[], rfl⟩
  | cons b r2 =>
    unfold camelSplit
    split
    · exact ⟨_, rfl⟩
    · exact ⟨_, rfl⟩

theorem noLU_cons_of_not_low {x : Char} {l : List Char} (hx : isLowAZ x = false)
    (h : noLU l = true) : noLU (x :: l) = true := by
  cases l with
  | nil => rfl
  | cons b r => simp [noLU, hx, h]

theorem noLU_cons_of_not_up {x y : Char} {l : List Char} (hy : isUpAZ y = false)
    (h : noLU (y :: l) = true) : noLU (x :: y :: l) = true := by
  simp only [noLU, hy, Bool.and_false, Bool.not_false, Bool.true_and]
  exact h

theorem camel_noLU : ∀ l : List Char, noLU (camelSplit l) = true := by
  intro l
  induction l using camelSplit.induct with
  | case1 => rfl
  | case2 a => rfl
  | case3 a b r hcond ih =>
    have hb : isUpAZ b = true := (band_split hcond).2
    rw [camelSplit, if_pos hcond]
    exact noLU_cons_of_not_up (by decide)
      (noLU_cons_of_not_low (by decide)
        (noLU_cons_of_not_low (not_lowAZ_of_upAZ hb) ih))
  | case4 a b r hcond ih =>
    rw [camelSplit, if_neg hcond]
    obtain ⟨t, ht⟩ := camel_head b r
    rw [ht] at ih ⊢
    have hcond2 : (isLowAZ a && isUpAZ b) = false := by
      cases hq : (isLowAZ a && isUpAZ b) with
      | false => rfl
      | true => exact absurd hq hcond
    simp [noLU, hcond2, ih]

theorem camel_id_of_noLU : ∀ l : List Char, noLU l = true → camelSplit l = l := by
  intro l
  induction l using camelSplit.induct with
  | case1 => intro _; rfl
  | case2 a => intro _; rfl
  | case3 a b r hcond ih =>
    intro h
    have h2 : ((!(isLowAZ a && isUpAZ b)) && noLU (b :: r)) = true := h
    have h3 := (band_split h2).1
    rw [hcond] at h3
    simp at h3
  | case4 a b r hcond ih =>
    intro h
    rw [camelSplit, if_neg hcond, ih (noLU_of_cons h)]

theorem noLU_map {f : Char → Char}
    (hf : ∀ c, isLowAZ (f c) = true → isLowAZ c = true)
    (hg : ∀ c, isUpAZ (f c) = true → isUpAZ c = true) :
    ∀ l : List Char, noLU l = true → noLU (l.map f) = true := by
  intro l
  induction l with
  | nil => intro _; rfl
  | cons a r ih =>
    intro h
    cases r with
    | nil => rfl
    | cons b r2 =>
      have h2 : ((!(isLowAZ a && isUpAZ b)) && noLU (b :: r2)) = true := h
      obtain ⟨h3, h4⟩ := band_split h2
      have hpair : (isLowAZ (f a) && isUpAZ (f b)) = false := by
        cases hq : (isLowAZ (f a) && isUpAZ (f b)) with
        | false => rfl
        | true =>
          obtain ⟨hq1, hq2⟩ := band_split hq
          have ha := hf _ hq1
          have hb := hg _ hq2
          rw [Bool.not_eq_true'] at h3
          rw [ha, hb] at h3
          simp at h3
      have h5 := ih h4
      simp only [List.map_cons] at h5 ⊢
      simp [noLU, hpair]
      exact h5

theorem undToSp_low : ∀ c, isLowAZ (undToSp c) = true → isLowAZ c = true := by
  intro c h
  by_cases hc : c = '_'
  · subst hc
    exact absurd h (by decide)
  · simpa [undToSp, hc] using h

theorem undToSp_up : ∀ c, isUpAZ (undToSp c) = true → isUpAZ c = true := by
  intro c h
  by_cases hc : c = '_'
  · subst hc
    exact absurd h (by decide)
  · simpa [undToSp, hc] using h

theorem dashToSp_low : ∀ c, isLowAZ (dashToSp c) = true → isLowAZ c = true := by
  intro c h
  by_cases hc : c = '-'
  · subst hc
    exact absurd h (by decide)
  · simpa [dashToSp, hc] using h

theorem dashToSp_up : ∀ c, isUpAZ (dashToSp c) = true → isUpAZ c = true := by
  intro c h
  by_cases hc : c = '-'
  · subst hc
    exact absurd h (by decide)
  · simpa [dashToSp, hc] using h

theorem noLU_take : ∀ (l : List Char) (j : Nat), noLU l = true → noLU (l.take j) = true := by
  intro l
  induction l with
  | nil => intro j _; simp [noLU]
  | cons a r ih =>
    intro j h
    cases j with
    | zero => rfl
    | succ j2 =>
      cases r with
      | nil => simp [noLU]
      | cons b r2 =>
        cases j2 with
        | zero => rfl
        | succ j3 =>
          have h2 : ((!(isLowAZ a && isUpAZ b)) && noLU (b :: r2)) = true := h
          obtain ⟨h3, h4⟩ := band_split h2
          have h5 := ih (j3 + 1) h4
          rw [List.take_succ_cons] at h5
          simp only [List.take_succ_cons]
          simp [noLU, h3, h5]

theorem noLU_dropWhile (p : Char → Bool) :
    ∀ l : List Char, noLU l = true → noLU (l.dropWhile p) = true := by
  intro l
  induction l with
  | nil => intro _; rfl
  | cons a r ih =>
    intro h
    by_cases hp : p a = true
    · rw [List.dropWhile_cons_of_pos hp]
      exact ih (noLU_of_cons h)
    · rw [List.dropWhile_cons_of_neg hp]
      exact h

theorem dropWhile_eq_drop (p : Char → Bool) :
    ∀ l : List Char, ∃ k, l.dropWhile p = l.drop k := by
  intro l
  induction l with
  | nil => exact ⟨0, rfl⟩
  | cons a r ih =>
    by_cases hp : p a = true
    · obtain ⟨k, hk⟩ := ih
      exact ⟨k + 1, by rw [List.dropWhile_cons_of_pos hp, List.drop_succ_cons, hk]⟩
    · exact ⟨0, by rw [List.dropWhile_cons_of_neg hp, List.drop_zero]⟩

/-- The right trim, written as a take of the input. -/
theorem rev_dropWhile_rev_eq_take (p : Char → Bool) (l : List Char) :
    ∃ j, (l.reverse.dropWhile p).reverse = l.take j := by
  obtain ⟨k, hk⟩ := dropWhile_eq_drop p l.reverse
  refine ⟨l.length - k, ?_⟩
  rw [hk, List.reverse_drop, List.reverse_reverse, List.length_reverse]

theorem noLU_trimChars {l : List Char} (h : noLU l = true) :
    noLU (trimChars l) = true := by
  unfold trimChars trimLeftChars
  obtain ⟨j, hj⟩ := rev_dropWhile_rev_eq_take wsChar (l.dropWhile wsChar)
  rw [hj]
  exact noLU_take _ j (noLU_dropWhile wsChar l h)

theorem mem_trimChars {c : Char} {l : List Char} (h : c ∈ trimChars l) : c ∈ l := by
  unfold trimChars trimLeftChars at h
  obtain ⟨j, hj⟩ := rev_dropWhile_rev_eq_take wsChar (l.dropWhile wsChar)
  rw [hj] at h
  have h2 := List.mem_of_mem_take h
  obtain ⟨k, hk⟩ := dropWhile_eq_drop wsChar l
  rw [hk] at h2
  exact List.mem_of_mem_drop h2

theorem map_self_of {f : Char → Char} :
    ∀ l : List Char, (∀ c ∈ l, f c = c) → l.map f = l := by
  intro l
  induction l with
  | nil => intro _; rfl
  | cons a r ih =>
    intro h
    rw [List.map_cons, h a (by simp), ih (fun c hc => h c (by simp [hc]))]

theorem mapped_fixed (b : Char) :
    undToSp (dashToSp (undToSp b)) = dashToSp (undToSp b) ∧
    dashToSp (dashToSp (undToSp b)) = dashToSp (undToSp b) := by
  by_cases h1 : b = '_'
  · subst h1
    exact ⟨by decide, by decide⟩
  · by_cases h2 : b = '-'
    · subst h2
      exact ⟨by decide, by decide⟩
    · simp [undToSp, dashToSp, h1, h2]

theorem dropWhile_idem (p : Char → Bool) :
    ∀ l : List Char, (l.dropWhile p).dropWhile p = l.dropWhile p := by
  intro l
  induction l with
  | nil => rfl
  | cons a r ih =>
    by_cases hp : p a = true
    · rw [List.dropWhile_cons_of_pos hp]
      exact ih
    · rw [List.dropWhile_cons_of_neg hp, List.dropWhile_cons_of_neg hp]

theorem head?_dropWhile (p : Char → Bool) :
    ∀ (l : List Char) (x : Char), (l.dropWhile p).head? = some x → p x = false := by
  intro l
  induction l with
  | nil => intro x h; simp at h
  | cons a r ih =>
    intro x h
    by_cases hp : p a = true
    · rw [List.dropWhile_cons_of_pos hp] at h
      exact ih x h
    · rw [List.dropWhile_cons_of_neg hp] at h
      simp at h
      subst h
      exact Bool.eq_false_iff.mpr hp

theorem getLast?_drop_of_ne_nil :
    ∀ (l : List Char) (k : Nat), l.drop k ≠ [] → (l.drop k).getLast? = l.getLast? := by
  intro l
  induction l with
  | nil => intro k h; simp at h
  | cons a r ih =>
    intro k h
    cases k with
    | zero => rfl
    | succ k2 =>
      rw [List.drop_succ_cons] at h ⊢
      cases hr : r with
      | nil => subst hr; simp at h
      | cons b r2 =>
        subst hr
        rw [ih k2 h, List.getLast?_cons_cons]

theorem dropWhile_eq_self_of_head (p : Char → Bool) (l : List Char)
    (h : ∀ x, l.head? = some x → p x = false) : l.dropWhile p = l := by
  cases l with
  | nil => rfl
  | cons a r =>
    have := h a rfl
    rw [List.dropWhile_cons_of_neg (by simp [this])]

theorem trimChars_idem : ∀ l : List Char, trimChars (trimChars l) = trimChars l := by
  intro l
  show trimChars (((trimLeftChars l).reverse.dropWhile wsChar).reverse) = trimChars l
  by_cases hD : ((trimLeftChars l).reverse.dropWhile wsChar) = []
  · rw [hD]
    have hl : trimChars l = [] := by
      unfold trimChars
      rw [hD]
      rfl
    rw [hl]
    rfl
  · have hhead : ∀ x, (((trimLeftChars l).reverse.dropWhile wsChar).reverse).head? = some x →
        wsChar x = false := by
      intro x hx
      rw [List.head?_reverse] at hx
      obtain ⟨k, hk⟩ := dropWhile_eq_drop wsChar (trimLeftChars l).reverse
      rw [hk] at hx hD
      rw [getLast?_drop_of_ne_nil _ k hD] at hx
      rw [List.getLast?_reverse] at hx
      exact head?_dropWhile wsChar l x hx
    show trimChars (((trimLeftChars l).reverse.dropWhile wsChar).reverse) = trimChars l
    unfold trimChars trimLeftChars
    unfold trimChars trimLeftChars at hhead
    rw [dropWhile_eq_self_of_head wsChar _ hhead]
    rw [List.reverse_reverse]
    rw [dropWhile_idem]

theorem humChars_noLU (l : List Char) : noLU (humChars l) = true := by
  unfold humChars
  exact noLU_trimChars
    (noLU_map dashToSp_low dashToSp_up _
      (noLU_map undToSp_low undToSp_up _ (camel_noLU l)))

theorem humChars_fixed (l : List Char) :
    ∀ c ∈ humChars l, undToSp c = c ∧ dashToSp c = c := by
  intro c hc
  unfold humChars at hc
  have hc2 := mem_trimChars hc
  rw [List.map_map] at hc2
  obtain ⟨b, hb, hbe⟩ := List.mem_map.mp hc2
  subst hbe
  exact mapped_fixed b

theorem humChars_idem (l : List Char) : humChars (humChars l) = humChars l := by
  conv_lhs => rw [humChars]
  rw [camel_id_of_noLU _ (humChars_noLU l)]
  rw [map_self_of _ (fun c hc => (humChars_fixed l c hc).1)]
  rw [map_self_of _ (fun c hc => (humChars_fixed l c hc).2)]
  conv_lhs => rw [humChars]
  conv_rhs => rw [humChars]
  exact trimChars_idem _

/-- C10: humanizeName is idempotent — one application already reaches a
    fixed point of camelCase splitting, underscore/hyphen replacement and
    trimming. -/
theorem C10_humanizeName_idempotent (s : String) :
    humanizeName (humanizeName s) = humanizeName s := by
  unfold humanizeName
  have hdata : ((humChars s.data).asString).data = humChars s.data := rfl
  rw [hdata, humChars_idem]

/- ===============================================================
   Claim C4: the child-summary walk stops at function-like nodes.
   =============================================================== -/

mutual

/-- Erase everything below any function-like node: the part of the tree the
    scope-bounded walk may never see. -/
def pruneFns : PNode → PNode
  | .mk t a b cs => .mk t a b (if skipNames.contains t then [] else pruneList cs)

def pruneList : List PNode → List PNode
  | [] => []
  | c :: r => pruneFns c :: pruneList r

end

theorem pruneFns_tag (n : PNode) : (pruneFns n).tag = n.tag := by
  cases n with
  | mk t a b cs => rfl

theorem pruneFns_nfrom (n : PNode) : (pruneFns n).nfrom = n.nfrom := by
  cases n with
  | mk t a b cs => rfl

theorem pruneFns_nto (n : PNode) : (pruneFns n).nto = n.nto := by
  cases n with
  | mk t a b cs => rfl

theorem pruneList_head? (l : List PNode) :
    (pruneList l).head? = l.head?.map pruneFns := by
  cases l with
  | nil => rfl
  | cons c r => rfl

theorem callNames_not_skip {t : String} (h : callNames.contains t = true) :
    skipNames.contains t = false := by
  simp only [callNames, List.contains_cons, Bool.or_eq_true, beq_iff_eq] at h
  rcases h with h | h | h
  · subst h; decide
  · subst h; decide
  · rcases h with h | h
    · subst h; decide
    · simp at h

theorem calleeName_prune (doc : String) (n : PNode)
    (hn : skipNames.contains n.tag = false) :
    calleeName doc (pruneFns n) = calleeName doc n := by
  cases n with
  | mk t a b cs =>
    simp only [PNode.tag] at hn
    have hn2 : t ∉ skipNames := by simpa using hn
    cases cs with
    | nil =>
      unfold pruneFns
      rw [if_neg (by simpa using hn2)]
      rfl
    | cons c r =>
      unfold pruneFns
      rw [if_neg (by simpa using hn2)]
      unfold calleeName
      simp only [PNode.children, pruneList, List.head?_cons]
      unfold nodeCh sliceCh
      rw [pruneFns_nfrom, pruneFns_nto]

theorem bumpSummary_prune (doc : String) (n : PNode) (s : ChildSummary) :
    bumpSummary doc (pruneFns n) s = bumpSummary doc n s := by
  by_cases hc : callNames.contains n.tag = true
  · have h1 := calleeName_prune doc n (callNames_not_skip hc)
    simp [bumpSummary, pruneFns_tag, h1]
  · have hcf : n.tag ∉ callNames := by simpa using hc
    simp [bumpSummary, pruneFns_tag, hcf]

theorem walkPrune (doc : String) : ∀ k : Nat,
    (∀ n : PNode, sizeOf n ≤ k → ∀ s,
      walkForSummary doc (pruneFns n) s = walkForSummary doc n s) ∧
    (∀ l : List PNode, sizeOf l ≤ k → ∀ s,
      walkSummaryList doc (pruneList l) s = walkSummaryList doc l s) := by
  intro k
  induction k with
  | zero =>
    constructor
    · intro n hn
      exfalso
      cases n with
      | mk t a b cs =>
        simp only [PNode.mk.sizeOf_spec] at hn
        omega
    · intro l hl
      exfalso
      cases l with
      | nil => simp at hl
      | cons c r =>
        simp only [List.cons.sizeOf_spec] at hl
        omega
  | succ k ih =>
    constructor
    · intro n hn s
      cases n with
      | mk t a b cs =>
        have hb := bumpSummary_prune doc (.mk t a b cs) s
        by_cases hsk : skipNames.contains t = true
        · simp only [pruneFns, walkForSummary, if_pos hsk] at hb ⊢
          exact hb
        · have hcs : sizeOf cs ≤ k := by
            simp only [PNode.mk.sizeOf_spec] at hn
            omega
          simp only [pruneFns, walkForSummary, if_neg hsk] at hb ⊢
          rw [hb]
          exact ih.2 cs hcs (bumpSummary doc (.mk t a b cs) s)
    · intro l hl s
      cases l with
      | nil => rfl
      | cons c r =>
        have hc : sizeOf c ≤ k := by
          simp only [List.cons.sizeOf_spec] at hl
          omega
        have hr : sizeOf r ≤ k := by
          simp only [List.cons.sizeOf_spec] at hl
          omega
        unfold pruneList walkSummaryList
        rw [ih.1 c hc s, ih.2 r hr]

/-- The example source of the claim. -/
def c4Doc : String :=
  "function outer() \x7b function inner() \x7b bar(); \x7d foo(); \x7d"

/-- A Lezer-style tree for the example source, spans matching `c4Doc`. -/
def c4Outer : PNode :=
  .mk "FunctionDeclaration" 0 55
    [.mk "function" 0 8 [],
     .mk "VariableDefinition" 9 14 [],
     .mk "ParamList" 14 16 [.mk "(" 14 15 [], .mk ")" 15 16 []],
     .mk "Block" 17 55
       [.mk "\x7b" 17 18 [],
        .mk "FunctionDeclaration" 19 46
          [.mk "function" 19 27 [],
           .mk "VariableDefinition" 28 33 [],
           .mk "ParamList" 33 35 [.mk "(" 33 34 [], .mk ")" 34 35 []],
           .mk "Block" 36 46
             [.mk "\x7b" 36 37 [],
              .mk "ExpressionStatement" 38 44
                [.mk "CallExpression" 38 43
                  [.mk "VariableName" 38 41 [],
                   .mk "ArgList" 41 43 [.mk "(" 41 42 [], .mk ")" 42 43 []]],
                 .mk ";" 43 44 []],
              .mk "\x7d" 45 46 []]],
        .mk "ExpressionStatement" 47 53
          [.mk "CallExpression" 47 52
            [.mk "VariableName" 47 50 [],
             .mk "ArgList" 50 52 [.mk "(" 50 51 [], .mk ")" 51 52 []]],
           .mk ";" 52 53 []],
        .mk "\x7d" 54 55 []]]

/-- C4: the summary walk never descends past a function-like node — its
    result is unchanged when everything below function-like nodes is erased
    from the tree — and on the claim's concrete example the outer function's
    summary counts exactly the one call to foo, excluding inner's call to
    bar. -/
theorem C4_scope_boundary :
    (∀ (doc : String) (n : PNode) (s : ChildSummary),
       walkForSummary doc (pruneFns n) s = walkForSummary doc n s) ∧
    (buildChildSummary c4Doc c4Outer).callCount = 1 ∧
    (buildChildSummary c4Doc c4Outer).calledFunctions = ["foo"] := by
  refine ⟨?_, ?_, ?_⟩
  · intro doc n s
    exact (walkPrune doc (sizeOf n)).1 n le_rfl s
  · decide
  · decide

/- ===============================================================
   Claim C5: buildOutline assigns ids 1, 2, 3, ... pre-order.
   =============================================================== -/

mutual

/-- Pre-order flattening of a declaration tree: each node before its
    children, children left to right. -/
def flattenPre (n : FileNode) : List FileNode :=
  match n with
  | .mk kind nm params returnType ia ie kw a b children cs =>
    .mk kind nm params returnType ia ie kw a b children cs :: flattenPreList children

def flattenPreList : List FileNode → List FileNode
  | [] => []
  | c :: r => flattenPre c ++ flattenPreList r

end

theorem walkNodeSpec (doc : String) : ∀ k : Nat,
    (∀ n : FileNode, sizeOf n ≤ k → ∀ depth i,
      (walkNode doc n depth i).2.1.map Prod.fst = List.range' i (flattenPre n).length ∧
      (walkNode doc n depth i).2.1.map (fun e => e.2.fileNode) = flattenPre n ∧
      (walkNode doc n depth i).2.2 = i + (flattenPre n).length) ∧
    (∀ l : List FileNode, sizeOf l ≤ k → ∀ depth i,
      (walkNodeList doc l depth i).2.1.map Prod.fst = List.range' i (flattenPreList l).length ∧
      (walkNodeList doc l depth i).2.1.map (fun e => e.2.fileNode) = flattenPreList l ∧
      (walkNodeList doc l depth i).2.2 = i + (flattenPreList l).length) := by
  intro k
  induction k with
  | zero =>
    constructor
    · intro n hn
      exfalso
      cases n with
      | mk k1 nm p r ia ie kw a b children cs =>
        simp only [FileNode.mk.sizeOf_spec] at hn
        omega
    · intro l hl
      exfalso
      cases l with
      | nil => simp at hl
      | cons c r =>
        simp only [List.cons.sizeOf_spec] at hl
        omega
  | succ k ih =>
    constructor
    · intro n hn depth i
      cases n with
      | mk k1 nm p r ia ie kw a b children cs =>
        have hch : sizeOf children ≤ k := by
          simp only [FileNode.mk.sizeOf_spec] at hn
          omega
        obtain ⟨h1, h2, h3⟩ := ih.2 children hch (depth + 1) (i + 1)
        unfold walkNode flattenPre
        refine ⟨?_, ?_, ?_⟩
        · simp only [List.map_cons, h1, List.length_cons]
          rw [List.range'_succ]
        · simp only [List.map_cons, h2]
        · simp only [h3, List.length_cons]
          omega
    · intro l hl depth i
      cases l with
      | nil =>
        refine ⟨rfl, rfl, by simp [walkNodeList, flattenPreList]⟩
      | cons c r =>
        have hc : sizeOf c ≤ k := by
          simp only [List.cons.sizeOf_spec] at hl
          omega
        have hr : sizeOf r ≤ k := by
          simp only [List.cons.sizeOf_spec] at hl
          omega
        obtain ⟨h1, h2, h3⟩ := ih.1 c hc depth i
        obtain ⟨h4, h5, h6⟩ :=
          ih.2 r hr depth ((walkNode doc c depth i).2.2)
        unfold walkNodeList flattenPreList
        refine ⟨?_, ?_, ?_⟩
        · rw [List.map_append, h1, h4, h3]
          have := List.range'_append i (flattenPre c).length (flattenPreList r).length 1
          simp only [one_mul, Nat.mul_one] at this
          rw [Nat.add_comm (flattenPreList r).length (flattenPre c).length] at this
          rw [← List.length_append] at this
          simp only [List.length_append] at this ⊢
          exact this
        · rw [List.map_append, h2, h5]
        · rw [h6, h3, List.length_append]
          omega

/-- C5: the ids recorded by buildOutline, in insertion order, are exactly
    1, 2, 3, ...; the recorded nodes are the optional synthesized imports
    pseudo-node followed by the pre-order flattening of the declarations;
    and when imports exist, the first entry is the imports pseudo-node with
    id 1. -/
theorem C5_outline_ids (st : FileStructure) (doc : String) :
    (buildOutline st doc).2.map Prod.fst = List.range' 1 (buildOutline st doc).2.length ∧
    (buildOutline st doc).2.map (fun e => e.2.fileNode) =
      (if st.imports.length > 0 then [synthImportNode st doc] else []) ++
        flattenPreList st.declarations ∧
    (st.imports.length > 0 →
      ((buildOutline st doc).2.head?.map Prod.fst = some 1 ∧
       (buildOutline st doc).2.head?.map (fun e => e.2.fileNode) =
         some (synthImportNode st doc))) := by
  by_cases hi : st.imports.length > 0
  · obtain ⟨h1, h2, h3⟩ :=
      (walkNodeSpec doc (sizeOf st.declarations)).2 st.declarations le_rfl 0 2
    unfold buildOutline
    rw [if_pos hi]
    simp only [List.map_cons, List.map_append, h1, h2, List.length_cons, List.length_append]
    refine ⟨?_, ?_, ?_⟩
    · have hlen : (walkNodeList doc st.declarations 0 2).2.1.length =
          (flattenPreList st.declarations).length := by
        have := congrArg List.length h2
        simpa using this
      simp only [List.map_nil, List.nil_append, List.length_nil]
      rw [hlen]
      have harith : (0 : Nat) + 1 + (flattenPreList st.declarations).length =
          (flattenPreList st.declarations).length + 1 := by omega
      rw [harith, List.range'_succ]
      simp
    · simp [hi]
    · intro _
      simp
  · obtain ⟨h1, h2, h3⟩ :=
      (walkNodeSpec doc (sizeOf st.declarations)).2 st.declarations le_rfl 0 1
    unfold buildOutline
    rw [if_neg hi]
    simp only [List.nil_append, h1, h2]
    refine ⟨?_, ?_, ?_⟩
    · have hlen : (walkNodeList doc st.declarations 0 1).2.1.length =
          (flattenPreList st.declarations).length := by
        have := congrArg List.length h2
        simpa using this
      rw [hlen]
    · simp [hi]
    · intro hc
      exact absurd hc hi

/-- A one-import, one-nested-function structure for the C5 witness. -/
def c5Struct : FileStructure :=
  { imports := [.mk Kind.kImport "m" [] none false false "import" 0 10 [] emptySummary],
    exports := [],
    declarations :=
      [.mk Kind.kFunction "f" [] none false false "function" 11 40
        [.mk Kind.kVariable "v" [] none false false "const" 20 30 [] emptySummary]
        emptySummary],
    language := "js" }

/-- Witness for C5: the theorem applied at a concrete structure with an
    imported module and a nested declaration; ids come out as 1, 2, 3. -/
theorem C5_outline_ids_witness :
    (buildOutline c5Struct "import m;  function f() \x7b const v = 1; \x7d").2.map
        Prod.fst =
      List.range' 1 (buildOutline c5Struct
        "import m;  function f() \x7b const v = 1; \x7d").2.length ∧
    c5Struct.imports.length > 0 ∧
    (buildOutline c5Struct "import m;  function f() \x7b const v = 1; \x7d").2.head?.map
        Prod.fst = some 1 :=
  ⟨(C5_outline_ids c5Struct "import m;  function f() \x7b const v = 1; \x7d").1,
   by decide,
   ((C5_outline_ids c5Struct "import m;  function f() \x7b const v = 1; \x7d").2.2
      (by decide)).1⟩

/- ===============================================================
   Claim C7: concept spans never partially overlap.
   =============================================================== -/

theorem wfNodeList_mem : ∀ {l : List PNode}, wfNodeList l = true →
    ∀ c ∈ l, wfNode c = true := by
  intro l
  induction l with
  | nil => intro _ c hc; simp at hc
  | cons d r ih =>
    intro h c hc
    have h2 : (wfNode d && wfNodeList r) = true := h
    obtain ⟨h3, h4⟩ := band_split h2
    rcases List.mem_cons.mp hc with hc | hc
    · subst hc; exact h3
    · exact ih h4 c hc

theorem wfNode_span_le {n : PNode} (h : wfNode n = true) : n.nfrom ≤ n.nto := by
  cases n with
  | mk t a b cs =>
    have h2 : ((decide (a ≤ b) && wfSpanList a b cs) && wfNodeList cs) = true := h
    have h3 := (band_split (band_split h2).1).1
    simpa using h3

theorem wfSpanList_tail : ∀ {a b : Nat} {c : PNode} {r : List PNode},
    wfSpanList a b (c :: r) = true → wfSpanList a b r = true := by
  intro a b c r h
  cases r with
  | nil => rfl
  | cons d r2 =>
    have h2 : ((decide (a ≤ c.nfrom) && decide (c.nto ≤ b) && decide (c.nto ≤ d.nfrom)) &&
        wfSpanList a b (d :: r2)) = true := h
    exact (band_split h2).2

theorem wfSpanList_bounds : ∀ {a b : Nat} {l : List PNode},
    wfSpanList a b l = true → ∀ c ∈ l, a ≤ c.nfrom ∧ c.nto ≤ b := by
  intro a b l
  induction l with
  | nil => intro _ c hc; simp at hc
  | cons d r ih =>
    intro h c hc
    have hd : a ≤ d.nfrom ∧ d.nto ≤ b := by
      cases r with
      | nil =>
        have h2 : (decide (a ≤ d.nfrom) && decide (d.nto ≤ b)) = true := h
        obtain ⟨h3, h4⟩ := band_split h2
        exact ⟨by simpa using h3, by simpa using h4⟩
      | cons e r2 =>
        have h2 : ((decide (a ≤ d.nfrom) && decide (d.nto ≤ b) && decide (d.nto ≤ e.nfrom)) &&
            wfSpanList a b (e :: r2)) = true := h
        obtain ⟨h3, _⟩ := band_split h2
        obtain ⟨h5, _⟩ := band_split h3
        exact ⟨by simpa using (band_split h5).1, by simpa using (band_split h5).2⟩
    rcases List.mem_cons.mp hc with hc | hc
    · subst hc; exact hd
    · exact ih (wfSpanList_tail h) c hc

theorem wfSpanList_head_sep : ∀ {r : List PNode} {a b : Nat} {c : PNode},
    wfSpanList a b (c :: r) = true → wfNodeList r = true →
    ∀ d ∈ r, c.nto ≤ d.nfrom := by
  intro r
  induction r with
  | nil => intro a b c _ _ d hd; simp at hd
  | cons d r2 ih =>
    intro a b c h hn e he
    have h2 : ((decide (a ≤ c.nfrom) && decide (c.nto ≤ b) && decide (c.nto ≤ d.nfrom)) &&
        wfSpanList a b (d :: r2)) = true := h
    obtain ⟨h3, h4⟩ := band_split h2
    have hcd : c.nto ≤ d.nfrom := by simpa using (band_split h3).2
    have hn2 : (wfNode d && wfNodeList r2) = true := hn
    obtain ⟨hnd, hnr2⟩ := band_split hn2
    rcases List.mem_cons.mp he with he | he
    · subst he; exact hcd
    · have hde := ih h4 hnr2 e he
      exact le_trans hcd (le_trans (wfNode_span_le hnd) hde)

theorem conceptSpec (doc : String) : ∀ k : Nat,
    (∀ n : PNode, sizeOf n ≤ k → wfNode n = true →
      (∀ inst ∈ visitConcepts doc n, n.nfrom ≤ inst.cfrom ∧ inst.cto ≤ n.nto) ∧
      (visitConcepts doc n).Pairwise (fun x y => x.cto ≤ y.cfrom)) ∧
    (∀ l : List PNode, sizeOf l ≤ k → ∀ a b : Nat,
      wfSpanList a b l = true → wfNodeList l = true →
      (∀ inst ∈ visitConceptsList doc l,
        ∃ d ∈ l, d.nfrom ≤ inst.cfrom ∧ inst.cto ≤ d.nto) ∧
      (visitConceptsList doc l).Pairwise (fun x y => x.cto ≤ y.cfrom)) := by
  intro k
  induction k with
  | zero =>
    constructor
    · intro n hn
      exfalso
      cases n with
      | mk t a b cs =>
        simp only [PNode.mk.sizeOf_spec] at hn
        omega
    · intro l hl a b hsl hnl
      cases l with
      | nil =>
        refine ⟨?_, List.Pairwise.nil⟩
        intro inst hinst
        simp [visitConceptsList] at hinst
      | cons c r =>
        exfalso
        simp only [List.cons.sizeOf_spec] at hl
        omega
  | succ k ih =>
    constructor
    · intro n hn hwf
      cases n with
      | mk t a b cs =>
        have h2 : ((decide (a ≤ b) && wfSpanList a b cs) && wfNodeList cs) = true := hwf
        obtain ⟨h3, hnl⟩ := band_split h2
        obtain ⟨hab, hsl⟩ := band_split h3
        have hcs : sizeOf cs ≤ k := by
          simp only [PNode.mk.sizeOf_spec] at hn
          omega
        unfold visitConcepts
        cases hlk : conceptMapLookup t with
        | some cat =>
          refine ⟨?_, List.pairwise_singleton _ _⟩
          intro inst hinst
          simp only [List.mem_singleton] at hinst
          subst hinst
          exact ⟨le_refl _, le_refl _⟩
        | none =>
          obtain ⟨hex, hpw⟩ := ih.2 cs hcs a b hsl hnl
          refine ⟨?_, hpw⟩
          intro inst hinst
          obtain ⟨d, hd, hd1, hd2⟩ := hex inst hinst
          obtain ⟨hb1, hb2⟩ := wfSpanList_bounds hsl d hd
          exact ⟨le_trans (by simpa using hb1) hd1, le_trans hd2 (by simpa using hb2)⟩
    · intro l hl a b hsl hnl
      cases l with
      | nil =>
        refine ⟨?_, List.Pairwise.nil⟩
        intro inst hinst
        simp [visitConceptsList] at hinst
      | cons c r =>
        have hc : sizeOf c ≤ k := by
          simp only [List.cons.sizeOf_spec] at hl
          omega
        have hr : sizeOf r ≤ k := by
          simp only [List.cons.sizeOf_spec] at hl
          omega
        have hn2 : (wfNode c && wfNodeList r) = true := hnl
        obtain ⟨hnc, hnr⟩ := band_split hn2
        obtain ⟨hbc, hpc⟩ := ih.1 c hc hnc
        obtain ⟨her, hpr⟩ := ih.2 r hr a b (wfSpanList_tail hsl) hnr
        unfold visitConceptsList
        constructor
        · intro inst hinst
          rcases List.mem_append.mp hinst with hin | hin
          · exact ⟨c, List.mem_cons_self c r, (hbc inst hin).1, (hbc inst hin).2⟩
          · obtain ⟨d, hd, hd1, hd2⟩ := her inst hin
            exact ⟨d, List.mem_cons_of_mem c hd, hd1, hd2⟩
        · refine List.pairwise_append.mpr ⟨hpc, hpr, ?_⟩
          intro x hx y hy
          obtain ⟨d, hd, hd1, hd2⟩ := her y hy
          have h5 := wfSpanList_head_sep hsl hnr d hd
          exact le_trans (hbc x hx).2 (le_trans h5 hd1)

/-- The claim's span relation: disjoint or (strictly) nested, never a
    partial overlap. -/
def spanDisjointOrNested (x y : ConceptInstance) : Prop :=
  (x.cto ≤ y.cfrom ∨ y.cto ≤ x.cfrom) ∨
  ((x.cfrom ≤ y.cfrom ∧ y.cto ≤ x.cto) ∨ (y.cfrom ≤ x.cfrom ∧ x.cto ≤ y.cto))

instance : DecidablePred fun p : ConceptInstance × ConceptInstance =>
    spanDisjointOrNested p.1 p.2 := by
  intro p
  unfold spanDisjointOrNested
  infer_instance

/-- C7: over any tree with well-formed spans, any two ConceptInstance
    records produced by extractConcepts have spans that are disjoint or
    nested, never partially overlapping — a consequence of recording a
    matching node and skipping its children. -/
theorem C7_concept_non_overlap (doc : String) (t : PNode) (h : wfNode t = true) :
    (extractConcepts doc t).Pairwise spanDisjointOrNested := by
  have hmain := ((conceptSpec doc (sizeOf t)).1 t le_rfl h).2
  exact hmain.imp (fun hxy => Or.inl (Or.inl hxy))

/-- A small concrete tree: a declaration containing a call (skipped by
    outermost-wins), followed by an if statement. -/
def c7Tree : PNode :=
  .mk "Script" 0 22
    [.mk "VariableDeclaration" 0 12 [.mk "CallExpression" 8 11 []],
     .mk "IfStatement" 13 22 [.mk "ParenthesizedExpression" 16 19 []]]

/-- Witness for C7: the theorem applied at the concrete tree. -/
theorem C7_concept_non_overlap_witness :
    wfNode c7Tree = true ∧
    (extractConcepts "let x = f(); if (x) \x7b\x7d" c7Tree).Pairwise
      spanDisjointOrNested :=
  ⟨by decide, C7_concept_non_overlap "let x = f(); if (x) \x7b\x7d" c7Tree (by decide)⟩

/- ===============================================================
   Claim C1: export-wrapper handling in walkJsNodes.
   =============================================================== -/

theorem FileNode.kind_withExported (n : FileNode) (e : Bool) :
    (n.withExported e).kind = n.kind := by
  cases n with
  | mk k nm p r a _ kw f t c s => rfl

theorem FileNode.isExported_withExported (n : FileNode) (e : Bool) :
    (n.withExported e).isExported = e := by
  cases n with
  | mk k nm p r a _ kw f t c s => rfl

/-- The inner declarations a wrapper's while-loop successfully builds, each
    with isExported forced true, in child order. -/
def innerBuilt (doc lang : String) (prevTag : Option String) : List PNode → List FileNode
  | [] => []
  | c :: rest =>
    match buildFileNode doc lang (some "ExportDeclaration") prevTag c with
    | some fn0 => fn0.withExported true :: innerBuilt doc lang (some c.tag) rest
    | none => innerBuilt doc lang (some c.tag) rest

theorem innerBuilt_exported (doc lang : String) :
    ∀ (cs : List PNode) (prevTag : Option String),
      ∀ f ∈ innerBuilt doc lang prevTag cs, f.isExported = true := by
  intro cs
  induction cs with
  | nil => intro p f hf; simp [innerBuilt] at hf
  | cons c rest ih =>
    intro p f hf
    unfold innerBuilt at hf
    cases hb : buildFileNode doc lang (some "ExportDeclaration") p c with
    | none =>
      rw [hb] at hf
      exact ih (some c.tag) f hf
    | some fn0 =>
      rw [hb] at hf
      rcases List.mem_cons.mp hf with hf | hf
      · subst hf
        exact FileNode.isExported_withExported fn0 true
      · exact ih (some c.tag) f hf

theorem processExportInner_spec (doc lang : String) :
    ∀ (cs : List PNode) (prevTag : Option String) (st : FileStructure),
      processExportInner doc lang prevTag st cs =
        { imports := st.imports ++
            (innerBuilt doc lang prevTag cs).filter (fun f => f.kind == Kind.kImport),
          exports := st.exports ++
            (innerBuilt doc lang prevTag cs).map (fun f => f.withKind Kind.kExport),
          declarations := st.declarations ++
            (innerBuilt doc lang prevTag cs).filter (fun f => !(f.kind == Kind.kImport)),
          language := st.language } := by
  intro cs
  induction cs with
  | nil =>
    intro p st
    cases st
    simp [processExportInner, innerBuilt]
  | cons c rest ih =>
    intro p st
    unfold processExportInner innerBuilt
    cases hb : buildFileNode doc lang (some "ExportDeclaration") p c with
    | none =>
      rw [ih]
    | some fn0 =>
      cases st with
      | mk im ex de lg =>
        rw [ih]
        by_cases hki : (fn0.withExported true).kind = Kind.kImport
        · have hkb : ((fn0.withExported true).kind == Kind.kImport) = true := by
            simp [hki]
          simp [hki, hkb, List.filter_cons, List.map_cons, List.append_assoc]
        · have hkb : ((fn0.withExported true).kind == Kind.kImport) = false := by
            simp [hki]
          simp [hki, hkb, List.filter_cons, List.map_cons, List.append_assoc]

/-- C1 (amended): for a top-level export-wrapper node n, every classifiable
    inner child is built with isExported = true and routed to declarations
    (or to imports when its kind is import), with exactly one kind-forced
    shallow copy per built child appended to exports in order; the wrapper
    node itself is additionally appended to exports exactly when the wrapper
    has no first child or its FIRST child is unclassifiable (later children
    are not consulted) and the wrapper itself builds. -/
theorem C1_export_wrapper (doc lang topTag : String) (prevTag : Option String)
    (n : PNode) (st : FileStructure) (h : n.tag = "ExportDeclaration") :
    (processTopNode doc lang topTag prevTag n st).declarations =
      st.declarations ++ (innerBuilt doc lang none n.children).filter
        (fun f => !(f.kind == Kind.kImport)) ∧
    (processTopNode doc lang topTag prevTag n st).imports =
      st.imports ++ (innerBuilt doc lang none n.children).filter
        (fun f => f.kind == Kind.kImport) ∧
    (processTopNode doc lang topTag prevTag n st).exports =
      st.exports ++ (innerBuilt doc lang none n.children).map
        (fun f => f.withKind Kind.kExport) ++
      (if wrapperFallback lang n = true
       then (buildFileNode doc lang (some topTag) prevTag n).toList else []) ∧
    (∀ f ∈ innerBuilt doc lang none n.children, f.isExported = true) := by
  unfold processTopNode
  rw [if_pos h]
  rw [processExportInner_spec]
  refine ⟨?_, ?_, ?_, innerBuilt_exported doc lang n.children none⟩
  · by_cases hw : wrapperFallback lang n = true
    · rw [if_pos hw]
      cases hb : buildFileNode doc lang (some topTag) prevTag n with
      | some en => rfl
      | none => rfl
    · rw [if_neg hw]
  · by_cases hw : wrapperFallback lang n = true
    · rw [if_pos hw]
      cases hb : buildFileNode doc lang (some topTag) prevTag n with
      | some en => rfl
      | none => rfl
    · rw [if_neg hw]
  · by_cases hw : wrapperFallback lang n = true
    · rw [if_pos hw, if_pos hw]
      cases hb : buildFileNode doc lang (some topTag) prevTag n with
      | some en => simp [Option.toList, List.append_assoc]
      | none => simp [Option.toList]
    · rw [if_neg hw, if_neg hw]
      simp

/-- The example source text of the C1 counterexample. -/
def c1Doc : String := "export function foo() \x7b\x7d"

def c1Tok : PNode := .mk "export" 0 6 []

def c1FD : PNode :=
  .mk "FunctionDeclaration" 7 24
    [.mk "function" 7 15 [],
     .mk "VariableDefinition" 16 19 [],
     .mk "ParamList" 19 21 [.mk "(" 19 20 [], .mk ")" 20 21 []],
     .mk "Block" 22 24 [.mk "\x7b" 22 23 [], .mk "\x7d" 23 24 []]]

/-- An ExportDeclaration wrapper whose first child is the `export` keyword
    token (as in every real Lezer tree) and whose second child is a
    classifiable FunctionDeclaration. -/
def c1Wrapper : PNode := .mk "ExportDeclaration" 0 24 [c1Tok, c1FD]

/-- C1 counterexample: the wrapper contains exactly one classifiable inner
    declaration, yet two entries are appended to exports — the copy of the
    inner declaration AND the wrapper itself — because the fallback check
    consults only the first child (the unclassifiable `export` token), not
    whether any classifiable inner child exists. -/
theorem C1_counterexample :
    (c1Wrapper.children.filter (fun c => (classifyNode "js" c).isSome)).length = 1 ∧
    (processTopNode c1Doc "js" "Script" none c1Wrapper (emptyStructure "js")).exports.length
      = 2 := by
  constructor
  · decide
  · have htok : buildFileNode c1Doc "js" (some "ExportDeclaration") none c1Tok = none := by
      rw [buildFileNode.eq_def]
      have hc : classifyNode "js" c1Tok = none := by decide
      rw [hc]
    have hfd : ∃ fn, buildFileNode c1Doc "js" (some "ExportDeclaration") (some "export") c1FD
        = some fn := by
      rw [buildFileNode.eq_def]
      have hc : classifyNode "js" c1FD = some Kind.kFunction := by decide
      rw [hc]
      exact ⟨_, rfl⟩
    obtain ⟨fn, hfn⟩ := hfd
    have hwr : ∃ en, buildFileNode c1Doc "js" (some "Script") none c1Wrapper = some en := by
      rw [buildFileNode.eq_def]
      have hc : classifyNode "js" c1Wrapper = some Kind.kExport := by decide
      rw [hc]
      exact ⟨_, rfl⟩
    obtain ⟨en, hen⟩ := hwr
    have hinner : innerBuilt c1Doc "js" none c1Wrapper.children = [fn.withExported true] := by
      show innerBuilt c1Doc "js" none [c1Tok, c1FD] = [fn.withExported true]
      unfold innerBuilt
      rw [htok]
      show innerBuilt c1Doc "js" (some c1Tok.tag) [c1FD] = [fn.withExported true]
      unfold innerBuilt
      have : c1Tok.tag = "export" := by decide
      rw [this, hfn]
      simp [innerBuilt]
    have hwf : wrapperFallback "js" c1Wrapper = true := by decide
    have hspec := processExportInner_spec c1Doc "js" c1Wrapper.children none
      (emptyStructure "js")
    have hproc : processTopNode c1Doc "js" "Script" none c1Wrapper (emptyStructure "js") =
        { (processExportInner c1Doc "js" none (emptyStructure "js") c1Wrapper.children) with
          exports := (processExportInner c1Doc "js" none (emptyStructure "js")
            c1Wrapper.children).exports ++ [en] } := by
      unfold processTopNode
      rw [if_pos (by decide : c1Wrapper.tag = "ExportDeclaration")]
      rw [if_pos (by decide : wrapperFallback "js" c1Wrapper = true)]
      rw [hen]
    rw [hproc]
    simp only [hspec, hinner]
    simp [emptyStructure]

/-- Witness for C1: the amended theorem applied at the concrete wrapper
    node, discharging the tag hypothesis. -/
theorem C1_export_wrapper_witness :
    (processTopNode c1Doc "js" "Script" none c1Wrapper
        (emptyStructure "js")).declarations =
      (emptyStructure "js").declarations ++
        (innerBuilt c1Doc "js" none c1Wrapper.children).filter
          (fun f => !(f.kind == Kind.kImport)) ∧
    (processTopNode c1Doc "js" "Script" none c1Wrapper
        (emptyStructure "js")).imports =
      (emptyStructure "js").imports ++
        (innerBuilt c1Doc "js" none c1Wrapper.children).filter
          (fun f => f.kind == Kind.kImport) ∧
    (processTopNode c1Doc "js" "Script" none c1Wrapper
        (emptyStructure "js")).exports =
      (emptyStructure "js").exports ++
        (innerBuilt c1Doc "js" none c1Wrapper.children).map
          (fun f => f.withKind Kind.kExport) ++
      (if wrapperFallback "js" c1Wrapper = true
       then (buildFileNode c1Doc "js" (some "Script") none c1Wrapper).toList else []) ∧
    (∀ f ∈ innerBuilt c1Doc "js" none c1Wrapper.children, f.isExported = true) :=
  C1_export_wrapper c1Doc "js" "Script" none c1Wrapper (emptyStructure "js") rfl

end Hopper
